import Mathlib

/-!
# Verification of the building-navigation extraction engine

Shallow embedding of the classification / extraction / query core of the
`pythonbygninger` repository (`pdf_parser.py`, `building_config.py`).

Modelling conventions:
* Python floats are modelled as `Rat` (exact rationals), with a
  kernel-evaluable arithmetic layer (`radd`, `rsub`, `rmul`, `rdiv`) proved
  equal to the standard field operations.
* Python strings are modelled as `String`; `len` is `String.length`;
  `str.strip()`, `str.lower()`, `str.upper()` are the ASCII models
  `pyStrip`, `pyLower`, `pyUpper`.
* Python compiled regular expressions are modelled by a small first-order
  regular-expression type `RE` together with a Brzozowski-derivative matcher.
  `re.match(p, t)` is a *prefix* match (`matchPref`); a pattern whose source
  ends in `$` is modelled as a full match (`matchFull`).  (`$` also matching
  before a final newline is not modelled; all classified texts are stripped.)
* `re.IGNORECASE` is modelled ASCII-style by the `ic : Bool` parameter of the
  matcher: a character matches a class if the character itself, its lowercase
  form or its uppercase form lies in the class (this is the behaviour of
  CPython's compiled ignore-case character sets for ASCII input).
* Character computations are done on code points (`Char.toNat`) so that all
  case lemmas are plain `Nat` arithmetic.
-/

namespace Bygn

/-! ## Executable rational arithmetic

The standard `Rat` field operations of the library are `irreducible`, so a
kernel-evaluable (`decide`-friendly) copy of each operation used by the
program is defined here via `mkRat`; each is proved equal to the standard
operation, so the model's arithmetic is ordinary exact rational arithmetic
(Python floats are modelled as exact rationals). -/

/-- Executable rational addition (`= a + b`, see `radd_eq`). -/
def radd (a b : Rat) : Rat :=
  mkRat (a.num * b.den + b.num * a.den) (a.den * b.den)

/-- Executable rational subtraction (`= a - b`, see `rsub_eq`). -/
def rsub (a b : Rat) : Rat :=
  mkRat (a.num * b.den - b.num * a.den) (a.den * b.den)

/-- Executable rational multiplication (`= a * b`, see `rmul_eq`). -/
def rmul (a b : Rat) : Rat :=
  mkRat (a.num * b.num) (a.den * b.den)

/-- Executable rational division (`= a / b`, with `rdiv a 0 = 0` as for
`Rat`; see `rdiv_eq`). -/
def rdiv (a b : Rat) : Rat :=
  Rat.divInt (a.num * b.den) (a.den * b.num)

theorem radd_eq (a b : Rat) : radd a b = a + b := (Rat.add_def' a b).symm

theorem rsub_eq (a b : Rat) : rsub a b = a - b := (Rat.sub_def' a b).symm

theorem rmul_eq (a b : Rat) : rmul a b = a * b := (Rat.mul_eq_mkRat a b).symm

theorem rdiv_eq (a b : Rat) : rdiv a b = a / b := by
  rw [rdiv, div_eq_mul_inv]
  conv_rhs => rw [← Rat.num_divInt_den a, ← Rat.num_divInt_den b]
  rw [Rat.inv_divInt', Rat.divInt_mul_divInt']

/-- ASCII lowercasing on code points (`A`-`Z` ↦ `a`-`z`). -/
def lowerCode (n : Nat) : Nat :=
  if 65 ≤ n ∧ n ≤ 90 then n + 32 else n

/-- ASCII uppercasing on code points (`a`-`z` ↦ `A`-`Z`). -/
def upperCode (n : Nat) : Nat :=
  if 97 ≤ n ∧ n ≤ 122 then n - 32 else n

/-- Does character `c` match the class `[lo-hi]` (code-point range)?
With `ic = true` the test is the ASCII ignore-case test: the character
matches if it, or its other-case form, lies in the range. -/
def charMatch (ic : Bool) (lo hi : Nat) (c : Char) : Bool :=
  let n := c.toNat
  decide (lo ≤ n ∧ n ≤ hi) ||
    (ic && (decide (lo ≤ lowerCode n ∧ lowerCode n ≤ hi) ||
            decide (lo ≤ upperCode n ∧ upperCode n ≤ hi)))

/-- First-order regular expressions over characters.  Character classes are
code-point ranges; unions of ranges are written with `alt`. -/
inductive RE where
  | emp
  | eps
  | cls (lo hi : Nat)
  | cat (a b : RE)
  | alt (a b : RE)
  | star (a : RE)
deriving DecidableEq, Repr

/-- Does `r` accept the empty string? -/
def RE.nullable : RE → Bool
  | .emp => false
  | .eps => true
  | .cls _ _ => false
  | .cat a b => a.nullable && b.nullable
  | .alt a b => a.nullable || b.nullable
  | .star _ => true

/-- Brzozowski derivative of `r` by the character `c`
(under ignore-case flag `ic`). -/
def RE.deriv (ic : Bool) : RE → Char → RE
  | .emp, _ => .emp
  | .eps, _ => .emp
  | .cls lo hi, c => if charMatch ic lo hi c then .eps else .emp
  | .cat a b, c =>
      if a.nullable then .alt (.cat (a.deriv ic c) b) (b.deriv ic c)
      else .cat (a.deriv ic c) b
  | .alt a b, c => .alt (a.deriv ic c) (b.deriv ic c)
  | .star a, c => .cat (a.deriv ic c) (.star a)

/-- The language of a regular expression (with ignore-case flag `ic`). -/
inductive Matches (ic : Bool) : RE → List Char → Prop where
  | eps : Matches ic .eps []
  | cls {lo hi : Nat} {c : Char} (h : charMatch ic lo hi c = true) :
      Matches ic (.cls lo hi) [c]
  | cat {a b : RE} {l₁ l₂ : List Char}
      (h₁ : Matches ic a l₁) (h₂ : Matches ic b l₂) :
      Matches ic (.cat a b) (l₁ ++ l₂)
  | altL {a b : RE} {l : List Char} (h : Matches ic a l) :
      Matches ic (.alt a b) l
  | altR {a b : RE} {l : List Char} (h : Matches ic b l) :
      Matches ic (.alt a b) l
  | starNil {a : RE} : Matches ic (.star a) []
  | starCons {a : RE} {l₁ l₂ : List Char}
      (h₁ : Matches ic a l₁) (h₂ : Matches ic (.star a) l₂) :
      Matches ic (.star a) (l₁ ++ l₂)

theorem nullable_iff {ic : Bool} {r : RE} :
    r.nullable = true ↔ Matches ic r [] := by
  constructor
  · intro h
    induction r with
    | emp => simp [RE.nullable] at h
    | eps => exact .eps
    | cls lo hi => simp [RE.nullable] at h
    | cat a b iha ihb =>
        simp [RE.nullable] at h
        exact (List.nil_append ([] : List Char)) ▸ Matches.cat (iha h.1) (ihb h.2)
    | alt a b iha ihb =>
        simp [RE.nullable] at h
        cases h with
        | inl h => exact .altL (iha h)
        | inr h => exact .altR (ihb h)
    | star a _ => exact .starNil
  · intro h
    generalize hl : ([] : List Char) = l at h
    induction h with
    | eps => rfl
    | cls h => simp at hl
    | cat h₁ h₂ ih₁ ih₂ =>
        rcases List.append_eq_nil.mp hl.symm with ⟨e₁, e₂⟩
        simp [RE.nullable, ih₁ e₁.symm, ih₂ e₂.symm]
    | altL h ih => simp [RE.nullable, ih hl]
    | altR h ih => simp [RE.nullable, ih hl]
    | starNil => rfl
    | starCons h₁ h₂ ih₁ ih₂ => rfl

theorem deriv_sound {ic : Bool} {r : RE} {c : Char} {l : List Char}
    (h : Matches ic (r.deriv ic c) l) : Matches ic r (c :: l) := by
  induction r generalizing l with
  | emp => cases h
  | eps => cases h
  | cls lo hi =>
      by_cases hc : charMatch ic lo hi c = true
      · simp [RE.deriv, hc] at h
        cases h
        exact .cls hc
      · simp [RE.deriv, hc] at h
        cases h
  | cat a b iha ihb =>
      by_cases hn : a.nullable = true
      · simp [RE.deriv, hn] at h
        cases h with
        | altL h =>
            cases h with
            | cat h₁ h₂ =>
                exact (List.cons_append c _ _) ▸ Matches.cat (iha h₁) h₂
        | altR h =>
            exact (List.nil_append (c :: l)) ▸
              Matches.cat (nullable_iff.mp hn) (ihb h)
      · simp [RE.deriv, hn] at h
        cases h with
        | cat h₁ h₂ =>
            exact (List.cons_append c _ _) ▸ Matches.cat (iha h₁) h₂
  | alt a b iha ihb =>
      cases h with
      | altL h => exact .altL (iha h)
      | altR h => exact .altR (ihb h)
  | star a iha =>
      cases h with
      | cat h₁ h₂ =>
          exact (List.cons_append c _ _) ▸ Matches.starCons (iha h₁) h₂

theorem deriv_complete {ic : Bool} {r : RE} {c : Char} {l : List Char}
    (h : Matches ic r (c :: l)) : Matches ic (r.deriv ic c) l := by
  generalize hm : c :: l = m at h
  induction h generalizing c l with
  | eps => simp at hm
  | cls hc =>
      rcases hm with hm
      cases hm
      simp [RE.deriv, hc]
      exact .eps
  | cat h₁ h₂ ih₁ ih₂ =>
      rename_i a b l₁ l₂
      cases l₁ with
      | nil =>
          simp at hm
          have hn : a.nullable = true := nullable_iff.mpr h₁
          simp [RE.deriv, hn]
          exact .altR (ih₂ hm)
      | cons c' l₁' =>
          rw [List.cons_append] at hm
          cases hm
          by_cases hn : a.nullable = true
          · simp [RE.deriv, hn]
            exact .altL (.cat (ih₁ rfl) h₂)
          · simp [RE.deriv, hn]
            exact .cat (ih₁ rfl) h₂
  | altL h ih =>
      simp [RE.deriv]
      exact .altL (ih hm)
  | altR h ih =>
      simp [RE.deriv]
      exact .altR (ih hm)
  | starNil => simp at hm
  | starCons h₁ h₂ ih₁ ih₂ =>
      rename_i a l₁ l₂
      cases l₁ with
      | nil =>
          simp at hm
          exact ih₂ hm
      | cons c' l₁' =>
          rw [List.cons_append] at hm
          cases hm
          simp [RE.deriv]
          exact .cat (ih₁ rfl) h₂

/-- Full-string acceptance, by iterated derivatives. -/
def matchFull (ic : Bool) (r : RE) (l : List Char) : Bool :=
  (l.foldl (fun r c => r.deriv ic c) r).nullable

theorem matchFull_iff {ic : Bool} {r : RE} {l : List Char} :
    matchFull ic r l = true ↔ Matches ic r l := by
  induction l generalizing r with
  | nil => exact nullable_iff
  | cons c cs ih =>
      constructor
      · intro h
        exact deriv_sound (ih.mp h)
      · intro h
        exact ih.mpr (deriv_complete h)

/-- Prefix acceptance: does some prefix of `l` match `r`?
This is the semantics of Python's `re.match` for a pattern without `$`. -/
def matchPref (ic : Bool) (r : RE) (l : List Char) : Bool :=
  (List.range (l.length + 1)).any (fun n => matchFull ic r (l.take n))

theorem matchPref_iff {ic : Bool} {r : RE} {l : List Char} :
    matchPref ic r l = true ↔
      ∃ l₁ l₂, l = l₁ ++ l₂ ∧ Matches ic r l₁ := by
  constructor
  · intro h
    rcases List.any_eq_true.mp h with ⟨n, _, hm⟩
    exact ⟨l.take n, l.drop n, (List.take_append_drop n l).symm,
      matchFull_iff.mp hm⟩
  · rintro ⟨l₁, l₂, rfl, hm⟩
    refine List.any_eq_true.mpr ⟨l₁.length, ?_, ?_⟩
    · refine List.mem_range.mpr ?_
      simp
      omega
    · rw [List.take_left]
      exact matchFull_iff.mpr hm

/-- The matcher applied to one source pattern: `anchorEnd` records whether the
pattern's source ends in `$` (full match) or not (prefix match). -/
def pyMatch (ic : Bool) (r : RE) (anchorEnd : Bool) (l : List Char) : Bool :=
  if anchorEnd then matchFull ic r l else matchPref ic r l

/-- A single literal character. -/
def RE.chr (c : Char) : RE := .cls c.toNat c.toNat

/-- A literal character string. -/
def RE.strL : List Char → RE
  | [] => .eps
  | c :: cs => .cat (.chr c) (RE.strL cs)

/-- `r?` -/
def RE.opt (r : RE) : RE := .alt r .eps

/-- `r{n}`: exactly `n` copies of `r`. -/
def RE.rep (r : RE) : Nat → RE
  | 0 => .eps
  | n + 1 => .cat r (RE.rep r n)

/-- `r{m,n}`: between `m` and `n` copies of `r`. -/
def RE.repRange (r : RE) (m n : Nat) : RE :=
  .cat (RE.rep r m) (RE.rep (RE.opt r) (n - m))

/-- `r+` -/
def RE.plus (r : RE) : RE := .cat r (.star r)

/-! ## The concrete regular expressions of the source

Each constant below is the translation of one pattern string occurring in
`building_config.py` (`create_default_config`) / `pdf_parser.py`
(`_is_room_text_default`).  The leading `^` of every source pattern is
implicit in `re.match`; a trailing `$` is recorded separately as the
`anchorEnd` flag at each use site. -/

/-- `\d` -/
def reDigit : RE := .cls 48 57

/-- `[A-Z]` -/
def reUpperAZ : RE := .cls 65 90

/-- `[A-Z0-9]` -/
def reAlnum : RE := .alt reUpperAZ reDigit

/-- `[-._]` (inside a class a leading `-` is literal) -/
def reSep : RE := .alt (.chr '-') (.alt (.chr '.') (.chr '_'))

/-- `[A-Z0-9]{1,4}[-._][A-Z0-9]{1,4}` (no `$`: prefix match) -/
def reRoom1 : RE :=
  .cat (RE.repRange reAlnum 1 4) (.cat reSep (RE.repRange reAlnum 1 4))

/-- `\d{2}_\d{2}` -/
def reRoom2 : RE :=
  .cat (RE.rep reDigit 2) (.cat (.chr '_') (RE.rep reDigit 2))

/-- `[A-Z]\.\d\.\d{2}` -/
def reRoom3 : RE :=
  .cat reUpperAZ (.cat (.chr '.')
    (.cat reDigit (.cat (.chr '.') (RE.rep reDigit 2))))

/-- `PH-D\d+\.?\d*_?\d*` -/
def reRoom4 : RE :=
  .cat (RE.strL ['P', 'H', '-', 'D'])
    (.cat (RE.plus reDigit)
      (.cat (RE.opt (.chr '.'))
        (.cat (.star reDigit)
          (.cat (RE.opt (.chr '_')) (.star reDigit)))))

/-- `[A-Z]{1,2}\d{2,4}` -/
def reRoom5 : RE := .cat (RE.repRange reUpperAZ 1 2) (RE.repRange reDigit 2 4)

/-- `\d{2,4}[A-Z]?` -/
def reRoom6 : RE := .cat (RE.repRange reDigit 2 4) (RE.opt reUpperAZ)

/-- `[A-Z0-9]{2,8}` -/
def reRoom7 : RE := RE.repRange reAlnum 2 8

/-- `[A-Z0-9.-_]`: the third item is the *range* `.-_`,
i.e. code points `0x2E`–`0x5F`. -/
def reCls8 : RE := .alt reUpperAZ (.alt reDigit (.cls 46 95))

/-- `[A-Z0-9.-_]{2,10}` -/
def reRoom8 : RE := RE.repRange reCls8 2 10

/-- `\d+\.\d+m2` -/
def reArea : RE :=
  .cat (RE.plus reDigit)
    (.cat (.chr '.') (.cat (RE.plus reDigit) (RE.strL ['m', '2'])))

/-- `(Area|Type|Room \d+\.\d+m2):` (no `$`: prefix match) -/
def reMeta : RE :=
  .cat
    (.alt (RE.strL ['A', 'r', 'e', 'a'])
      (.alt (RE.strL ['T', 'y', 'p', 'e'])
        (.cat (RE.strL ['R', 'o', 'o', 'm', ' '])
          (.cat (RE.plus reDigit)
            (.cat (.chr '.')
              (.cat (RE.plus reDigit) (RE.strL ['m', '2'])))))))
    (.chr ':')

/-- `\d+\.\d+` -/
def reDecimal : RE :=
  .cat (RE.plus reDigit) (.cat (.chr '.') (RE.plus reDigit))

/-- `(width|height|scale|rotation|metadata|properties)` -/
def reTech : RE :=
  .alt (RE.strL ['w', 'i', 'd', 't', 'h'])
    (.alt (RE.strL ['h', 'e', 'i', 'g', 'h', 't'])
      (.alt (RE.strL ['s', 'c', 'a', 'l', 'e'])
        (.alt (RE.strL ['r', 'o', 't', 'a', 't', 'i', 'o', 'n'])
          (.alt (RE.strL ['m', 'e', 't', 'a', 'd', 'a', 't', 'a'])
            (RE.strL ['p', 'r', 'o', 'p', 'e', 'r', 't', 'i', 'e', 's'])))))

/-- `[\d.]+` -/
def reNumDots : RE := RE.plus (.alt reDigit (.chr '.'))

/-! ## Configuration data model (`building_config.py`) -/

/-- `FontSizeRange` (dataclass, `building_config.py` lines 12-19). -/
structure FontSizeRange where
  min_size : Rat
  max_size : Rat
deriving DecidableEq, Repr

/-- `FontSizeRange.contains`: `self.min_size <= size <= self.max_size`. -/
def FontSizeRange.contains (r : FontSizeRange) (size : Rat) : Bool :=
  decide (r.min_size ≤ size) && decide (size ≤ r.max_size)

/-- The `pattern` string of a `RoomPattern`, as seen by `re.match`:
either it compiles to a regular expression (with or without a trailing `$`),
or compilation raises `re.error`. -/
inductive PatSpec where
  | re (r : RE) (anchorEnd : Bool)
  | invalid
deriving DecidableEq, Repr

/-- `RoomPattern` (dataclass, `building_config.py` lines 21-34): also used
for exclude patterns. -/
structure RoomPattern where
  pattern : PatSpec
  description : String
  enabled : Bool := true
deriving DecidableEq, Repr

/-- `RoomPattern.matches`: a disabled pattern never matches; a pattern that
fails to compile never matches (`except re.error: return False`); otherwise
`re.match(self.pattern, text, re.IGNORECASE)` — always ignore-case, prefix
match (full match when the pattern source ends in `$`). -/
def RoomPattern.matches (p : RoomPattern) (text : String) : Bool :=
  if !p.enabled then false
  else
    match p.pattern with
    | .invalid => false
    | .re r anchorEnd => pyMatch true r anchorEnd text.data

/-- `BuildingConfig` (dataclass, `building_config.py` lines 36-48). -/
structure BuildingConfig where
  building_name : String
  font_size_ranges : List FontSizeRange
  room_patterns : List RoomPattern
  entrance_keywords : List String
  exclude_patterns : List RoomPattern
  min_text_length : Nat := 1
  max_text_length : Nat := 15
  case_sensitive : Bool := false
deriving DecidableEq, Repr

/-- `ConfigurationManager.create_default_config`
(`building_config.py` lines 122-151), literally. -/
def create_default_config (building_name : String) : BuildingConfig where
  building_name := building_name
  -- [3.2, 3.6] and [49.0, 49.4], written as exact rationals
  font_size_ranges := [⟨mkRat 16 5, mkRat 18 5⟩, ⟨49, mkRat 247 5⟩]
  room_patterns :=
    [⟨.re reRoom1 false, "Format som PH-D1, A-01", true⟩,
     ⟨.re reRoom2 true, "Format som 01_02", true⟩,
     ⟨.re reRoom3 true, "Format som A.1.01", true⟩,
     ⟨.re reRoom4 true, "Format som PH-D1.11_01", true⟩,
     ⟨.re reRoom5 true, "Format som A101, AB123", true⟩,
     ⟨.re reRoom6 true, "Format som 101, 202A", true⟩,
     ⟨.re reRoom7 true, "Korte alfanumeriske koder", true⟩,
     ⟨.re reRoom8 true, "Generelle alfanumeriske kombinationer", true⟩]
  entrance_keywords := ["indgang", "entrance", "entry"]
  exclude_patterns :=
    [⟨.re reArea true, "Arealmaal", true⟩,
     ⟨.re reMeta false, "Metadata", true⟩,
     ⟨.re reDecimal true, "Lange decimal tal (over 6 cifre)", true⟩,
     ⟨.re reTech true, "Tekniske termer", true⟩,
     ⟨.re reNumDots true, "Kun tal og punktummer", true⟩]
  min_text_length := 1
  max_text_length := 15
  case_sensitive := false

/-! ## Label classifier (`pdf_parser.py`) -/

/-- ASCII model of Python's `str.lower` on one character. -/
def pyLowerChar (c : Char) : Char := Char.ofNat (lowerCode c.toNat)

/-- ASCII model of Python's `str.upper` on one character. -/
def pyUpperChar (c : Char) : Char := Char.ofNat (upperCode c.toNat)

/-- ASCII model of Python's `str.lower`. -/
def pyLower (s : String) : String := ⟨s.data.map pyLowerChar⟩

/-- ASCII model of Python's `str.upper`. -/
def pyUpper (s : String) : String := ⟨s.data.map pyUpperChar⟩

/-- The whitespace characters stripped by Python's `str.strip()`
(ASCII part). -/
def isPySpace (c : Char) : Bool :=
  c == ' ' || c == '\t' || c == '\n' || c == '\r' || c == '\x0b' || c == '\x0c'

/-- ASCII model of Python's `str.strip()`. -/
def pyStrip (s : String) : String :=
  ⟨((s.data.dropWhile isPySpace).reverse.dropWhile isPySpace).reverse⟩

/-- Python `needle in hay` (substring containment). -/
def strIn (needle hay : String) : Bool :=
  go needle.data hay.data
where
  go (n : List Char) : List Char → Bool
    | [] => n.isEmpty
    | c :: rest => pref n (c :: rest) || go n rest
  pref : List Char → List Char → Bool
    | [], _ => true
    | _ :: _, [] => false
    | a :: as, b :: bs => a == b && pref as bs

/-- `PDFParser._is_room_text_with_config` (`pdf_parser.py` lines 70-96). -/
def is_room_text_with_config (config : BuildingConfig) (text : String)
    (font_size normalized_font_size : Rat) : Bool :=
  if text.length < config.min_text_length ∨
      text.length > config.max_text_length then false
  else if !(config.font_size_ranges.any fun r => r.contains font_size) then
    false
  else if config.exclude_patterns.any fun p => p.matches text then false
  else config.room_patterns.any fun p => p.matches text

/-- `PDFParser._is_room_text_default` (`pdf_parser.py` lines 98-154).
`useOcr` is the parser's `self.use_ocr` attribute (`False` on a freshly
constructed parser; set only by the OCR fallback). -/
def is_room_text_default (useOcr : Bool) (text : String)
    (font_size normalized_font_size : Rat) : Bool :=
  if text.length < 1 then false
  -- font-size bands 3.2–3.6 and 49.0–49.4 (OCR mode: 1.0–100.0)
  else if !(decide (mkRat 16 5 ≤ font_size) && decide (font_size ≤ mkRat 18 5) ||
            decide ((49 : Rat) ≤ font_size) && decide (font_size ≤ mkRat 247 5) ||
            useOcr && decide ((1 : Rat) ≤ font_size) && decide (font_size ≤ (100 : Rat)))
    then false
  else if pyMatch true reArea true text.data then false
  else if pyMatch true reMeta false text.data then false
  else if pyMatch false reDecimal true text.data && decide (text.length > 6)
    then false
  else if pyMatch true reTech true text.data then false
  else if pyMatch true reRoom1 false text.data then true
  else if pyMatch false reRoom2 true text.data then true
  else if pyMatch true reRoom3 true text.data then true
  else if pyMatch true reRoom4 true text.data then true
  else if pyMatch true reRoom5 true text.data then true
  else if pyMatch true reRoom6 true text.data then true
  else if pyMatch true reRoom7 true text.data then true
  else if pyMatch true reRoom8 true text.data &&
      !(pyMatch false reNumDots true text.data) then true
  else false

/-- `PDFParser.is_room_text` (`pdf_parser.py` lines 59-68): empty text is
rejected, then the configured or the default classifier is used. -/
def is_room_text (config : Option BuildingConfig) (useOcr : Bool)
    (text : String) (font_size normalized_font_size : Rat) : Bool :=
  if text = "" then false
  else
    match config with
    | some cfg => is_room_text_with_config cfg text font_size normalized_font_size
    | none => is_room_text_default useOcr text font_size normalized_font_size

/-- `PDFParser.is_entrance_text` (`pdf_parser.py` lines 156-168). -/
def is_entrance_text (config : Option BuildingConfig) (text : String) : Bool :=
  match config with
  | some cfg =>
      cfg.entrance_keywords.any fun keyword =>
        strIn (if cfg.case_sensitive then keyword else pyLower keyword)
              (if cfg.case_sensitive then text else pyLower text)
  | none => strIn "indgang" (pyLower text)

/-! ## Text extraction engine (`PDFParser.extract_text_with_coordinates`,
`pdf_parser.py` lines 170-259)

One text span of the page's native text layer: `text` is `span["text"]`,
`size` is `span["size"]`, and `(x0, y0, x1, y1)` is `span["bbox"]`. -/

structure SpanData where
  text : String
  size : Rat
  x0 : Rat
  y0 : Rat
  x1 : Rat
  y1 : Rat
deriving DecidableEq, Repr

/-- A room label as appended by the extraction loop
(`pdf_parser.py` lines 245-252). -/
structure RoomLabel where
  id : String
  text : String
  x : Rat
  y : Rat
  font_size : Rat
  normalized_font_size : Rat
deriving DecidableEq, Repr

/-- An entrance label as appended by the extraction loop
(`pdf_parser.py` lines 236-242). -/
structure EntranceLabel where
  text : String
  x : Rat
  y : Rat
  font_size : Rat
  normalized_font_size : Rat
deriving DecidableEq, Repr

/-- The per-span loop of `extract_text_with_coordinates`
(`pdf_parser.py` lines 209-252), with the surrounding `try/except`
(lines 178, 256-259) modelled explicitly: the span list contains `none` at
the point where an exception is raised during span processing ("unexpected
page structure"); the `except` clause catches it, after which the
accumulated `rooms, entrances` lists are returned (the `return` statement
at line 259 is outside the `try` block and the lists are initialised before
it).  `scale` is the already-computed `size_scale_factor`. -/
def extract_loop (config : Option BuildingConfig) (useOcr : Bool)
    (w h scale : Rat) :
    List (Option SpanData) → List RoomLabel → List EntranceLabel →
      List RoomLabel × List EntranceLabel
  | [], rooms, entrances => (rooms, entrances)
  | none :: _, rooms, entrances => (rooms, entrances)
  | some s :: rest, rooms, entrances =>
    let text := pyStrip s.text
    if text = "" then extract_loop config useOcr w h scale rest rooms entrances
    else
      let normalized_font_size := rdiv s.size scale
      let norm_x := rdiv (rdiv (radd s.x0 s.x1) 2) w
      let norm_y := rdiv (rdiv (radd s.y0 s.y1) 2) h
      if is_entrance_text config text then
        extract_loop config useOcr w h scale rest rooms
          (entrances ++ [⟨text, norm_x, norm_y, s.size, normalized_font_size⟩])
      else if is_room_text config useOcr text s.size normalized_font_size then
        extract_loop config useOcr w h scale rest
          (rooms ++ [⟨pyUpper text, text, norm_x, norm_y, s.size,
            normalized_font_size⟩])
          entrances
      else extract_loop config useOcr w h scale rest rooms entrances

/-- `extract_text_with_coordinates` on a page with native text: the
page-scale factor is `((w*h)/(595*842)) ** 0.5` and the span loop runs on
the accumulated empty lists.  The square root is not rational, so the model
takes the square-root function `sqrtA` as a parameter and applies it to the
exact argument `(w*h)/(595*842)` the source computes. -/
def extract_text_with_coordinates (config : Option BuildingConfig)
    (useOcr : Bool) (sqrtA : Rat → Rat) (w h : Rat)
    (spans : List (Option SpanData)) :
    List RoomLabel × List EntranceLabel :=
  let size_scale_factor := sqrtA (rdiv (rmul w h) (rmul 595 842))
  extract_loop config useOcr w h size_scale_factor spans [] []

/-- The room label produced by one well-formed span (or `none` when the
span is skipped): the specification function for the room component of the
extraction loop. -/
def roomOf (config : Option BuildingConfig) (useOcr : Bool)
    (w h scale : Rat) (s : SpanData) : Option RoomLabel :=
  let text := pyStrip s.text
  if text = "" then none
  else if is_entrance_text config text then none
  else if is_room_text config useOcr text s.size (rdiv s.size scale) then
    some ⟨pyUpper text, text, rdiv (rdiv (radd s.x0 s.x1) 2) w,
      rdiv (rdiv (radd s.y0 s.y1) 2) h, s.size, rdiv s.size scale⟩
  else none

/-- The entrance label produced by one well-formed span (or `none`):
the specification function for the entrance component of the extraction
loop. -/
def entrOf (config : Option BuildingConfig) (w h scale : Rat)
    (s : SpanData) : Option EntranceLabel :=
  let text := pyStrip s.text
  if text = "" then none
  else if is_entrance_text config text then
    some ⟨text, rdiv (rdiv (radd s.x0 s.x1) 2) w,
      rdiv (rdiv (radd s.y0 s.y1) 2) h, s.size, rdiv s.size scale⟩
  else none

/-! ## Building index (`BuildingManager`, `pdf_parser.py` lines 463-601) -/

/-- The per-building state of `BuildingManager` relevant to queries:
`all_rooms` and `all_entrances` are insertion-ordered mappings
floor-name → labels (Python dicts preserve insertion order). -/
structure BuildingState where
  all_rooms : List (String × List RoomLabel)
  all_entrances : List (String × List EntranceLabel)
deriving DecidableEq, Repr

/-- `BuildingManager.search_room` (`pdf_parser.py` lines 552-565):
uppercase and strip the query, then scan floors in insertion order and the
rooms of each floor in extraction order, returning the first room whose
`id` equals the processed query (paired with its floor name). -/
def search_room (st : BuildingState) (room_query : String) :
    Option (String × RoomLabel) :=
  go (st.all_rooms)
where
  q : String := pyStrip (pyUpper room_query)
  go : List (String × List RoomLabel) → Option (String × RoomLabel)
    | [] => none
    | (floor_name, rooms) :: rest =>
      match rooms.find? (fun room => room.id == q) with
      | some room => some (floor_name, room)
      | none => go rest

/-- The ground-floor filter of `get_nearest_entrance`
(`pdf_parser.py` lines 570-573): the floor name contains `'stue'`,
`'ground'` or `'0'` as a substring, case-insensitively. -/
def isGroundFloorName (floor_name : String) : Bool :=
  ["stue", "ground", "0"].any fun keyword => strIn keyword (pyLower floor_name)

/-- The candidate entrances of `get_nearest_entrance`
(`pdf_parser.py` lines 569-581): entrances of ground floors, or of all
floors when no floor name passes the ground filter. -/
def entranceCandidates (st : BuildingState) : List EntranceLabel :=
  let ground := st.all_entrances.filter fun p => isGroundFloorName p.1
  let target := if ground.isEmpty then st.all_entrances else ground
  target.flatMap Prod.snd

/-- Squared Euclidean distance from an entrance to the query point.
The source compares `dist ** 0.5` values; square root is strictly
monotone, so comparing squared distances selects the same entrance. -/
def dist2 (room_x room_y : Rat) (e : EntranceLabel) : Rat :=
  radd (rmul (rsub e.x room_x) (rsub e.x room_x))
       (rmul (rsub e.y room_y) (rsub e.y room_y))

/-- The minimisation loop of `get_nearest_entrance`
(`pdf_parser.py` lines 586-594): strict improvement (`<`) keeps the
earlier entrance on ties; `min_distance` starts at infinity, so the first
candidate always becomes the running best. -/
def nearestAux (room_x room_y : Rat) :
    EntranceLabel → Rat → List EntranceLabel → EntranceLabel
  | best, _, [] => best
  | best, bestd, e :: rest =>
    if dist2 room_x room_y e < bestd then
      nearestAux room_x room_y e (dist2 room_x room_y e) rest
    else nearestAux room_x room_y best bestd rest

/-- `BuildingManager.get_nearest_entrance` (`pdf_parser.py` lines 567-596). -/
def get_nearest_entrance (st : BuildingState) (room_x room_y : Rat) :
    Option EntranceLabel :=
  match entranceCandidates st with
  | [] => none
  | e :: rest => some (nearestAux room_x room_y e (dist2 room_x room_y e) rest)

/-! ## Configuration serialisation (`BuildingConfig.to_dict` /
`BuildingConfig.from_dict`, `building_config.py` lines 50-75) -/

/-- The dictionary produced by `BuildingConfig.to_dict`: one entry per
field, with ranges and patterns themselves rendered as dictionaries of
their fields (modelled by structures with exactly those fields). -/
structure ConfigDict where
  building_name : String
  font_size_ranges : List FontSizeRange
  room_patterns : List RoomPattern
  entrance_keywords : List String
  exclude_patterns : List RoomPattern
  min_text_length : Nat
  max_text_length : Nat
  case_sensitive : Bool
deriving DecidableEq, Repr

/-- `BuildingConfig.to_dict` (`building_config.py` lines 50-61): each field
is serialised; ranges and patterns are rebuilt field by field. -/
def BuildingConfig.to_dict (c : BuildingConfig) : ConfigDict where
  building_name := c.building_name
  font_size_ranges := c.font_size_ranges.map fun r => ⟨r.min_size, r.max_size⟩
  room_patterns := c.room_patterns.map fun p =>
    ⟨p.pattern, p.description, p.enabled⟩
  entrance_keywords := c.entrance_keywords
  exclude_patterns := c.exclude_patterns.map fun p =>
    ⟨p.pattern, p.description, p.enabled⟩
  min_text_length := c.min_text_length
  max_text_length := c.max_text_length
  case_sensitive := c.case_sensitive

/-- `BuildingConfig.from_dict` (`building_config.py` lines 63-75) applied
to a complete dictionary (as produced by `to_dict`, which always emits
every key, so none of `from_dict`'s `.get` defaults fire). -/
def BuildingConfig.from_dict (data : ConfigDict) : BuildingConfig where
  building_name := data.building_name
  font_size_ranges := data.font_size_ranges.map fun r =>
    ⟨r.min_size, r.max_size⟩
  room_patterns := data.room_patterns.map fun p =>
    ⟨p.pattern, p.description, p.enabled⟩
  entrance_keywords := data.entrance_keywords
  exclude_patterns := data.exclude_patterns.map fun p =>
    ⟨p.pattern, p.description, p.enabled⟩
  min_text_length := data.min_text_length
  max_text_length := data.max_text_length
  case_sensitive := data.case_sensitive

/-! ## Helper lemmas on the matcher -/

theorem charMatch_mono {lo hi : Nat} {c : Char} (ic : Bool)
    (h : charMatch false lo hi c = true) : charMatch ic lo hi c = true := by
  unfold charMatch at h ⊢
  simp only [Bool.false_and, Bool.or_false] at h
  simp [h]

/-- Matching is monotone in the ignore-case flag. -/
theorem Matches.mono {r : RE} {l : List Char} (ic : Bool)
    (h : Matches false r l) : Matches ic r l := by
  induction h with
  | eps => exact .eps
  | cls h => exact .cls (charMatch_mono ic h)
  | cat _ _ ih₁ ih₂ => exact .cat ih₁ ih₂
  | altL _ ih => exact .altL ih
  | altR _ ih => exact .altR ih
  | starNil => exact .starNil
  | starCons _ _ ih₁ ih₂ => exact .starCons ih₁ ih₂

theorem matchFull_mono {r : RE} {l : List Char} (ic : Bool)
    (h : matchFull false r l = true) : matchFull ic r l = true :=
  matchFull_iff.mpr ((matchFull_iff.mp h).mono ic)

/-- A regular expression all of whose character classes match independently
of the ignore-case flag. -/
def icInvariant : RE → Prop
  | .emp => True
  | .eps => True
  | .cls lo hi => ∀ (ic : Bool) (c : Char), charMatch ic lo hi c = charMatch false lo hi c
  | .cat a b => icInvariant a ∧ icInvariant b
  | .alt a b => icInvariant a ∧ icInvariant b
  | .star a => icInvariant a

theorem Matches.icInv {r : RE} {l : List Char} {ic ic' : Bool}
    (hr : icInvariant r) (h : Matches ic r l) : Matches ic' r l := by
  induction h with
  | eps => exact .eps
  | cls h =>
      rename_i lo hi c
      refine .cls ?_
      rw [icInvariant] at hr
      rw [hr, ← hr ic]
      exact h
  | cat _ _ ih₁ ih₂ => exact .cat (ih₁ hr.1) (ih₂ hr.2)
  | altL _ ih => exact .altL (ih hr.1)
  | altR _ ih => exact .altR (ih hr.2)
  | starNil => exact .starNil
  | starCons _ _ ih₁ ih₂ => exact .starCons (ih₁ hr) (ih₂ hr)

theorem matchFull_icInv {r : RE} {l : List Char} (ic ic' : Bool)
    (hr : icInvariant r) : matchFull ic r l = matchFull ic' r l := by
  rw [Bool.eq_iff_iff, matchFull_iff, matchFull_iff]
  exact ⟨fun h => h.icInv hr, fun h => h.icInv hr⟩

/-- A character range disjoint from the images of ASCII case mapping is
ignore-case invariant. -/
theorem charMatch_caseFree {lo hi : Nat}
    (h1 : ∀ n, 65 ≤ n → n ≤ 90 → ¬(lo ≤ n + 32 ∧ n + 32 ≤ hi))
    (h2 : ∀ n, 97 ≤ n → n ≤ 122 → ¬(lo ≤ n - 32 ∧ n - 32 ≤ hi))
    (ic : Bool) (c : Char) : charMatch ic lo hi c = charMatch false lo hi c := by
  cases ic
  · rfl
  · unfold charMatch lowerCode upperCode
    simp only [Bool.false_and, Bool.or_false, Bool.true_and]
    rcases hm : decide (lo ≤ c.toNat ∧ c.toNat ≤ hi)
    · simp only [Bool.false_or]
      simp only [decide_eq_false_iff_not] at hm
      refine Bool.or_eq_false_iff.mpr ⟨?_, ?_⟩ <;>
        · rw [decide_eq_false_iff_not]
          split
          · rename_i hc
            first
              | exact h1 c.toNat hc.1 hc.2
              | exact h2 c.toNat hc.1 hc.2
          · exact hm
    · simp

theorem digit_caseFree (ic : Bool) (c : Char) :
    charMatch ic 48 57 c = charMatch false 48 57 c :=
  charMatch_caseFree (by omega) (by omega) ic c

theorem underscore_caseFree (ic : Bool) (c : Char) :
    charMatch ic 95 95 c = charMatch false 95 95 c :=
  charMatch_caseFree (by omega) (by omega) ic c

theorem reRoom2_icInvariant : icInvariant reRoom2 := by
  refine ⟨⟨digit_caseFree, digit_caseFree, trivial⟩,
    underscore_caseFree, digit_caseFree, digit_caseFree, trivial⟩

/-- Inversion: a class matches only singletons. -/
theorem Matches.cls_inv {ic : Bool} {lo hi : Nat} {l : List Char}
    (h : Matches ic (.cls lo hi) l) :
    ∃ c, l = [c] ∧ charMatch ic lo hi c = true := by
  cases h with
  | cls hc => exact ⟨_, rfl, hc⟩

/-- Inversion for concatenation. -/
theorem Matches.cat_inv {ic : Bool} {a b : RE} {l : List Char}
    (h : Matches ic (.cat a b) l) :
    ∃ l₁ l₂, l = l₁ ++ l₂ ∧ Matches ic a l₁ ∧ Matches ic b l₂ := by
  cases h with
  | cat h₁ h₂ => exact ⟨_, _, rfl, h₁, h₂⟩

/-- Every character of a star-of-class match is in the class. -/
theorem Matches.star_chars {ic : Bool} {u : RE} {l : List Char}
    (hu : ∀ m, Matches ic u m → ∀ c ∈ m, Matches ic u [c])
    (h : Matches ic (.star u) l) : ∀ c ∈ l, Matches ic u [c] := by
  generalize hs : RE.star u = s at h
  induction h with
  | eps => simp at hs
  | cls _ => simp at hs
  | cat _ _ _ _ => simp at hs
  | altL _ _ => simp at hs
  | altR _ _ => simp at hs
  | starNil => simp
  | starCons h₁ h₂ ih₁ ih₂ =>
      cases hs
      intro c hc
      rcases List.mem_append.mp hc with hc | hc
      · exact hu _ h₁ c hc
      · exact ih₂ rfl c hc

/-- Every character of a `plus`-of-single-char match satisfies the
single-char matcher, and the match is non-empty. -/
theorem Matches.plus_chars {ic : Bool} {u : RE} {l : List Char}
    (hnn : ¬ Matches ic u [])
    (hu : ∀ m, Matches ic u m → ∀ c ∈ m, Matches ic u [c])
    (h : Matches ic (RE.plus u) l) :
    l ≠ [] ∧ ∀ c ∈ l, Matches ic u [c] := by
  rcases h.cat_inv with ⟨l₁, l₂, rfl, h₁, h₂⟩
  have hl₂ := h₂.star_chars hu
  constructor
  · intro hl
    rcases List.append_eq_nil.mp hl with ⟨rfl, _⟩
    exact hnn h₁
  · intro c hc
    rcases List.mem_append.mp hc with hc | hc
    · exact hu _ h₁ c hc
    · exact hl₂ c hc

/-- Building a star match from characterwise matches. -/
theorem Matches.star_of_chars {ic : Bool} {u : RE} {l : List Char}
    (h : ∀ c ∈ l, Matches ic u [c]) : Matches ic (.star u) l := by
  induction l with
  | nil => exact .starNil
  | cons c cs ih =>
      have : Matches ic (.star u) ([c] ++ cs) :=
        .starCons (h c (by simp)) (ih fun c hc => h c (by simp [hc]))
      simpa using this

/-- Building a `plus` match from characterwise matches. -/
theorem Matches.plus_of_chars {ic : Bool} {u : RE} {l : List Char}
    (hne : l ≠ []) (h : ∀ c ∈ l, Matches ic u [c]) :
    Matches ic (RE.plus u) l := by
  rcases l with _ | ⟨c, cs⟩
  · exact absurd rfl hne
  · have : Matches ic (RE.cat u (.star u)) ([c] ++ cs) :=
      .cat (h c (by simp)) (.star_of_chars fun c hc => h c (by simp [hc]))
    simpa [RE.plus] using this

theorem digit_single {ic : Bool} :
    ∀ m, Matches ic reDigit m → ∀ c ∈ m, Matches ic reDigit [c] := by
  intro m hm c hc
  rcases hm.cls_inv with ⟨c', rfl, h⟩
  simp at hc
  subst hc
  exact .cls h

theorem digit_not_nil {ic : Bool} : ¬ Matches ic reDigit [] := by
  intro h
  rcases h.cls_inv with ⟨c, hc, _⟩
  simp at hc

/-- Every string matched by `\d+\.\d+` is also matched by `[\d.]+`. -/
theorem decimal_subset_numDots {ic : Bool} {l : List Char}
    (h : Matches ic reDecimal l) : Matches ic reNumDots l := by
  rcases h.cat_inv with ⟨l₁, l₂, rfl, h₁, h₂⟩
  rcases h₂.cat_inv with ⟨m, l₃, rfl, hm, h₃⟩
  rcases hm.cls_inv with ⟨c, rfl, hc⟩
  have g₁ := h₁.plus_chars digit_not_nil digit_single
  have g₃ := h₃.plus_chars digit_not_nil digit_single
  refine Matches.plus_of_chars (by simp [g₁.1]) ?_
  intro d hd
  rcases List.mem_append.mp hd with hd | hd
  · exact .altL (g₁.2 d hd)
  · rcases List.mem_append.mp hd with hd | hd
    · simp at hd
      subst hd
      exact .altR (.cls hc)
    · exact .altL (g₃.2 d hd)

/-- If `[\d.]+` (ignore-case) rejects a string, so do all the decimal
patterns, under both flags. -/
theorem numDots_false_gates {l : List Char}
    (h : matchFull true reNumDots l = false) :
    matchFull true reDecimal l = false ∧
    matchFull false reDecimal l = false ∧
    matchFull false reNumDots l = false := by
  have hd : matchFull true reDecimal l = false := by
    by_contra h2
    rw [Bool.not_eq_false, matchFull_iff] at h2
    have := matchFull_iff.mpr (decimal_subset_numDots h2)
    rw [h] at this
    cases this
  refine ⟨hd, ?_, ?_⟩
  · by_contra h2
    rw [Bool.not_eq_false] at h2
    have := matchFull_mono true h2
    rw [hd] at this
    cases this
  · by_contra h2
    rw [Bool.not_eq_false] at h2
    have := matchFull_mono true h2
    rw [h] at this
    cases this

theorem map_fsr_eta (l : List FontSizeRange) :
    (l.map fun r => (⟨r.min_size, r.max_size⟩ : FontSizeRange)) = l := by
  induction l with
  | nil => rfl
  | cons r rs ih => simp [ih]

theorem map_rp_eta (l : List RoomPattern) :
    (l.map fun p => (⟨p.pattern, p.description, p.enabled⟩ : RoomPattern)) = l := by
  induction l with
  | nil => rfl
  | cons p ps ih => simp [ih]

theorem if_bool_true_or (a b : Bool) : (if a = true then true else b) = (a || b) := by
  cases a <;> simp

theorem if_bool_false_and (a b : Bool) : (if a = true then false else b) = (!a && b) := by
  cases a <;> simp

theorem default_min_text_length (bn : String) :
    (create_default_config bn).min_text_length = 1 := rfl

theorem default_max_text_length (bn : String) :
    (create_default_config bn).max_text_length = 15 := rfl

theorem default_font_size_ranges (bn : String) :
    (create_default_config bn).font_size_ranges =
      [⟨mkRat 16 5, mkRat 18 5⟩, ⟨49, mkRat 247 5⟩] := rfl

theorem default_room_patterns (bn : String) :
    (create_default_config bn).room_patterns =
      [⟨.re reRoom1 false, "Format som PH-D1, A-01", true⟩,
       ⟨.re reRoom2 true, "Format som 01_02", true⟩,
       ⟨.re reRoom3 true, "Format som A.1.01", true⟩,
       ⟨.re reRoom4 true, "Format som PH-D1.11_01", true⟩,
       ⟨.re reRoom5 true, "Format som A101, AB123", true⟩,
       ⟨.re reRoom6 true, "Format som 101, 202A", true⟩,
       ⟨.re reRoom7 true, "Korte alfanumeriske koder", true⟩,
       ⟨.re reRoom8 true, "Generelle alfanumeriske kombinationer", true⟩] := rfl

theorem default_exclude_patterns (bn : String) :
    (create_default_config bn).exclude_patterns =
      [⟨.re reArea true, "Arealmaal", true⟩,
       ⟨.re reMeta false, "Metadata", true⟩,
       ⟨.re reDecimal true, "Lange decimal tal (over 6 cifre)", true⟩,
       ⟨.re reTech true, "Tekniske termer", true⟩,
       ⟨.re reNumDots true, "Kun tal og punktummer", true⟩] := rfl

theorem matches_enabled_re (r : RE) (anch : Bool) (d : String) (t : String) :
    RoomPattern.matches ⟨.re r anch, d, true⟩ t = pyMatch true r anch t.data := rfl

theorem pyMatch_anchored (ic : Bool) (r : RE) (l : List Char) :
    pyMatch ic r true l = matchFull ic r l := rfl

theorem pyMatch_unanchored (ic : Bool) (r : RE) (l : List Char) :
    pyMatch ic r false l = matchPref ic r l := rfl

/-! ## The claims -/

/-- C9: serialising a `BuildingConfig` with `to_dict` and deserialising it
with `from_dict` round-trips to an equal value, field for field (every
range, every room and exclude pattern with its description and enabled
flag, the entrance keywords, the length bounds and the case flag). -/
theorem C9_to_dict_from_dict_roundtrip (c : BuildingConfig) :
    BuildingConfig.from_dict c.to_dict = c := by
  cases c
  simp [BuildingConfig.to_dict, BuildingConfig.from_dict, List.map_map,
    map_fsr_eta, map_rp_eta]

/-- C2: the configured room classifier returns false when the text length
is outside `[min_text_length, max_text_length]`; false when no configured
font-size range contains the raw font size; false when some exclude
pattern matches (the exclude veto applies regardless of room patterns);
true when all gates pass and some room pattern matches; and false when no
room pattern matches. -/
theorem C2_classify_as_room (cfg : BuildingConfig) (text : String)
    (font_size normalized_font_size : Rat) :
    (text.length < cfg.min_text_length ∨ text.length > cfg.max_text_length →
      is_room_text_with_config cfg text font_size normalized_font_size = false) ∧
    ((∀ r ∈ cfg.font_size_ranges, r.contains font_size = false) →
      is_room_text_with_config cfg text font_size normalized_font_size = false) ∧
    ((∃ p ∈ cfg.exclude_patterns, p.matches text = true) →
      is_room_text_with_config cfg text font_size normalized_font_size = false) ∧
    (cfg.min_text_length ≤ text.length → text.length ≤ cfg.max_text_length →
      (∃ r ∈ cfg.font_size_ranges, r.contains font_size = true) →
      (∀ p ∈ cfg.exclude_patterns, p.matches text = false) →
      (∃ p ∈ cfg.room_patterns, p.matches text = true) →
      is_room_text_with_config cfg text font_size normalized_font_size = true) ∧
    ((∀ p ∈ cfg.room_patterns, p.matches text = false) →
      is_room_text_with_config cfg text font_size normalized_font_size = false) := by
  unfold is_room_text_with_config
  split_ifs with h1 h2 h3
  · exact ⟨fun _ => rfl, fun _ => rfl, fun _ => rfl,
      fun hmin hmax _ _ _ => absurd h1 (by omega), fun _ => rfl⟩
  · rw [Bool.not_eq_true'] at h2
    refine ⟨fun _ => rfl, fun _ => rfl, fun _ => rfl, ?_, fun _ => rfl⟩
    intro _ _ hex _ _
    rcases hex with ⟨r, hr, hc⟩
    rw [List.any_eq_false] at h2
    exact h2 r hr hc
  · refine ⟨fun _ => rfl, fun _ => rfl, fun _ => rfl, ?_, fun _ => rfl⟩
    intro _ _ _ hnone _
    rcases List.any_eq_true.mp h3 with ⟨p, hp, hm⟩
    rw [hnone p hp] at hm
    cases hm
  · rw [Bool.not_eq_true', Bool.not_eq_false] at h2
    refine ⟨fun h => absurd h h1, ?_, ?_, ?_, ?_⟩
    · intro hall
      rcases List.any_eq_true.mp h2 with ⟨r, hr, hc⟩
      rw [hall r hr] at hc
      cases hc
    · intro hex
      rcases hex with ⟨p, hp, hm⟩
      exact absurd (List.any_eq_true.mpr ⟨p, hp, hm⟩) h3
    · intro _ _ _ _ hex
      exact List.any_eq_true.mpr hex
    · intro hall
      exact List.any_eq_false.mpr fun p hp => by rw [hall p hp]; exact Bool.false_ne_true

/-- C2 witness: under the default configuration, `"A101"` at raw size 3.4
is a room (all gates pass, pattern 5 matches) and `"x"` at raw size 1 is
not (no font-size range accepts 1). -/
theorem C2_classify_as_room_witness :
    is_room_text_with_config (create_default_config "B") "A101" (mkRat 17 5) 0 = true ∧
    is_room_text_with_config (create_default_config "B") "x" 1 0 = false := by
  constructor
  · exact (C2_classify_as_room (create_default_config "B") "A101"
      (mkRat 17 5) 0).2.2.2.1 (by decide) (by decide) (by decide) (by decide)
      (by decide)
  · exact (C2_classify_as_room (create_default_config "B") "x" 1 0).2.1
      (by decide)

/-- C10: under the default configuration, a text consisting solely of
digits and dots is never classified as a room, at any font size: the
exclude pattern for pure-numeric strings fires before any room pattern
can match. -/
theorem C10_default_excludes_pure_numeric (building_name text : String)
    (font_size normalized_font_size : Rat)
    (hchars : ∀ c ∈ text.data, charMatch false 48 57 c = true ∨ c = '.') :
    is_room_text_with_config (create_default_config building_name) text
      font_size normalized_font_size = false := by
  unfold is_room_text_with_config
  split_ifs with h1 h2 h3
  · rfl
  · rfl
  · rfl
  · exfalso
    apply h3
    have hlen : 1 ≤ text.length := by
      have hmin : (create_default_config building_name).min_text_length = 1 := rfl
      omega
    have hne : text.data ≠ [] := by
      intro hd
      have h0 : text.length = 0 := by
        show text.data.length = 0
        rw [hd]
        rfl
      omega
    have hmatch : matchFull true reNumDots text.data = true := by
      refine matchFull_iff.mpr (Matches.plus_of_chars hne ?_)
      intro c hc
      rcases hchars c hc with h | h
      · exact .altL (.cls (charMatch_mono true h))
      · subst h
        exact .altR (.cls (by decide))
    refine List.any_eq_true.mpr ⟨⟨.re reNumDots true, "Kun tal og punktummer", true⟩, ?_, ?_⟩
    · simp [create_default_config]
    · simp [RoomPattern.matches, pyMatch, hmatch]

/-- C10 witness: `"101"` and `"3.14"` at raw size 3.4 are rejected by the
default configuration. -/
theorem C10_default_excludes_pure_numeric_witness :
    is_room_text_with_config (create_default_config "B") "101" (mkRat 17 5) 0 = false ∧
    is_room_text_with_config (create_default_config "B") "3.14" (mkRat 17 5) 0 = false :=
  ⟨C10_default_excludes_pure_numeric "B" "101" (mkRat 17 5) 0 (by decide),
   C10_default_excludes_pure_numeric "B" "3.14" (mkRat 17 5) 0 (by decide)⟩


/-- C1 counterexample: at text `"101"` and raw font size 3.4, the
no-configuration classifier answers `true` (pattern `\d{2,4}[A-Z]?`
accepts) while the classifier under the literal default configuration
answers `false` (the pure-numeric exclude pattern `[\d.]+` fires), so the
two classifiers are not extensionally equal. -/
theorem C1_default_vs_config_counterexample :
    is_room_text none false "101" (mkRat 17 5) 0 ≠
      is_room_text_with_config (create_default_config "Building") "101"
        (mkRat 17 5) 0 := by
  decide

/-- C1 amended: the no-configuration classifier agrees with the classifier
under the literal default configuration on every text of length at most 15
that is not matched by the pure-numeric exclude pattern `[\d.]+`
(the two classifiers differ exactly where the hard-coded default applies
the pure-numeric and long-decimal excludes more narrowly and has no upper
length bound). -/
theorem C1_default_matches_config_when_bounded_nonnumeric
    (building_name text : String) (font_size normalized_font_size : Rat)
    (hlen : text.length ≤ 15)
    (hnum : matchFull true reNumDots text.data = false) :
    is_room_text none false text font_size normalized_font_size =
      is_room_text_with_config (create_default_config building_name) text
        font_size normalized_font_size := by
  obtain ⟨hdec_t, hdec_f, hnum_f⟩ := numDots_false_gates hnum
  by_cases he : text = ""
  · subst he
    rw [is_room_text, if_pos rfl]
    rw [is_room_text_with_config,
      if_pos (Or.inl (show "".length <
          (create_default_config building_name).min_text_length by
        rw [default_min_text_length]
        decide))]
  · have hdata : text.data ≠ [] := by
      intro hd
      apply he
      cases text
      simp only at hd
      rw [hd]
    have hpos : 0 < text.length :=
      List.length_pos.mpr hdata
    have hR2 : matchFull false reRoom2 text.data =
        matchFull true reRoom2 text.data :=
      matchFull_icInv false true reRoom2_icInvariant
    rw [is_room_text, if_neg he]
    show is_room_text_default false text font_size normalized_font_size = _
    rw [is_room_text_default, is_room_text_with_config]
    rw [if_neg (by omega : ¬ text.length < 1)]
    rw [if_neg (show ¬(text.length <
          (create_default_config building_name).min_text_length ∨
        text.length > (create_default_config building_name).max_text_length) by
      rw [default_min_text_length, default_max_text_length]
      omega)]
    rw [default_font_size_ranges, default_exclude_patterns,
      default_room_patterns]
    simp only [List.any_cons, List.any_nil, FontSizeRange.contains,
      matches_enabled_re, pyMatch_anchored, pyMatch_unanchored,
      hdec_t, hdec_f, hnum, hnum_f, hR2]
    simp [if_bool_true_or, if_bool_false_and, Bool.not_or, Bool.and_assoc,
      Bool.or_assoc]

/-- C1 amended witness: at `"A101"`, font size 3.4, both classifiers
agree. -/
theorem C1_default_matches_config_witness :
    is_room_text none false "A101" (mkRat 17 5) 0 =
      is_room_text_with_config (create_default_config "Building") "A101"
        (mkRat 17 5) 0 :=
  C1_default_matches_config_when_bounded_nonnumeric "Building" "A101"
    (mkRat 17 5) 0 (by decide) (by decide)


/-- A configuration whose `case_sensitive` flag is `true` and whose single
room pattern is the uppercase-only class `^[A-Z]$`. -/
def csConfig : BuildingConfig where
  building_name := "cs"
  font_size_ranges := [⟨0, 100⟩]
  room_patterns := [⟨.re reUpperAZ true, "uppercase only", true⟩]
  entrance_keywords := []
  exclude_patterns := []
  min_text_length := 1
  max_text_length := 15
  case_sensitive := true

/-- C5 counterexample: `RoomPattern.matches` always passes `re.IGNORECASE`
and never consults the configuration's `case_sensitive` flag, so even under
a configuration with `case_sensitive = true` the lowercase text `"a"`
matches the uppercase-only pattern `^[A-Z]$` and is classified as a room —
the claim that matching is case-sensitive when `case_sensitive` is true
fails. -/
theorem C5_case_flag_counterexample :
    csConfig.case_sensitive = true ∧
    RoomPattern.matches ⟨.re reUpperAZ true, "uppercase only", true⟩ "a" = true ∧
    is_room_text_with_config csConfig "a" 1 0 = true :=
  ⟨rfl, by decide, by decide⟩

/-- C5 amended: a disabled pattern never matches; a pattern that failed to
compile never matches (and the matcher is total, so nothing is raised);
matching a compiled pattern without a trailing `$` is anchored at the start
of the text — it succeeds exactly when some *prefix* of the text is in the
pattern's language (not only the full string); and matching is always
case-insensitive — the `case_sensitive` flag has no effect on room
classification (in the code it is consulted only for entrance keywords). -/
theorem C5_pattern_matching (p : RoomPattern) (r : RE) (d : String)
    (en : Bool) (t : String) (cfg : BuildingConfig)
    (font_size normalized_font_size : Rat) :
    (p.enabled = false → p.matches t = false) ∧
    (RoomPattern.matches ⟨.invalid, d, en⟩ t = false) ∧
    (RoomPattern.matches ⟨.re r false, d, true⟩ t = true ↔
      ∃ l₁ l₂, t.data = l₁ ++ l₂ ∧ Matches true r l₁) ∧
    (is_room_text_with_config { cfg with case_sensitive := true } t
        font_size normalized_font_size =
      is_room_text_with_config { cfg with case_sensitive := false } t
        font_size normalized_font_size) := by
  refine ⟨?_, ?_, ?_, rfl⟩
  · intro hdis
    rw [RoomPattern.matches, hdis]
    simp
  · rw [RoomPattern.matches]
    cases en <;> simp
  · rw [matches_enabled_re, pyMatch_unanchored]
    exact matchPref_iff

/-- C5 witness: the single-digit pattern `^\d` (no `$`) matches `"7x"` (a
prefix match) when enabled, and does not match when disabled. -/
theorem C5_pattern_matching_witness :
    RoomPattern.matches ⟨.re reDigit false, "digit", true⟩ "7x" = true ∧
    RoomPattern.matches ⟨.re reDigit false, "digit", false⟩ "7x" = false := by
  constructor
  · exact (C5_pattern_matching ⟨.re reDigit false, "digit", true⟩ reDigit
      "digit" true "7x" csConfig 1 0).2.2.1.mpr
      ⟨['7'], ['x'], by decide, .cls (by decide)⟩
  · exact (C5_pattern_matching ⟨.re reDigit false, "digit", false⟩ reDigit
      "digit" false "7x" csConfig 1 0).1 rfl

/-- The extraction loop on well-formed spans appends exactly the labels
described by `roomOf` and `entrOf`, in span order. -/
theorem extract_loop_spec (config : Option BuildingConfig) (useOcr : Bool)
    (w h scale : Rat) (spans : List SpanData)
    (rooms : List RoomLabel) (entrances : List EntranceLabel) :
    extract_loop config useOcr w h scale (spans.map some) rooms entrances =
      (rooms ++ spans.filterMap (roomOf config useOcr w h scale),
       entrances ++ spans.filterMap (entrOf config w h scale)) := by
  induction spans generalizing rooms entrances with
  | nil => simp [extract_loop]
  | cons s rest ih =>
      simp only [List.map_cons, List.filterMap_cons, extract_loop]
      by_cases h1 : pyStrip s.text = ""
      · rw [if_pos h1, ih]
        simp [roomOf, entrOf, h1]
      · rw [if_neg h1]
        by_cases h2 : is_entrance_text config (pyStrip s.text) = true
        · rw [if_pos h2, ih]
          simp [roomOf, entrOf, h1, h2]
        · rw [if_neg h2]
          by_cases h3 : is_room_text config useOcr (pyStrip s.text) s.size
              (rdiv s.size scale) = true
          · rw [if_pos h3, ih]
            simp [roomOf, entrOf, h1, h2, h3]
          · rw [if_neg h3, ih]
            simp [roomOf, entrOf, h1, h2, h3]

/-- C3: in a native-text extraction pass the entrance test comes first: the
output lists are described span by span by `roomOf` and `entrOf`, and a
span whose stripped text is classified as an entrance contributes no room
label (even if a room pattern would also match it at an accepted font
size) while contributing exactly one entrance label when non-empty. -/
theorem C3_entrance_before_room (config : Option BuildingConfig)
    (useOcr : Bool) (sqrtA : Rat → Rat) (w h scale : Rat)
    (spans : List SpanData) (s : SpanData) :
    (extract_text_with_coordinates config useOcr sqrtA w h (spans.map some) =
      (spans.filterMap (roomOf config useOcr w h
          (sqrtA (rdiv (rmul w h) (rmul 595 842)))),
       spans.filterMap (entrOf config w h
          (sqrtA (rdiv (rmul w h) (rmul 595 842)))))) ∧
    (is_entrance_text config (pyStrip s.text) = true →
      roomOf config useOcr w h scale s = none) ∧
    (is_entrance_text config (pyStrip s.text) = true → pyStrip s.text ≠ "" →
      ∃ e, entrOf config w h scale s = some e ∧ e.text = pyStrip s.text) := by
  refine ⟨?_, ?_, ?_⟩
  · simp only [extract_text_with_coordinates]
    rw [extract_loop_spec]
    simp
  · intro hent
    rw [roomOf]
    by_cases h1 : pyStrip s.text = ""
    · simp [h1]
    · simp [h1, hent]
  · intro hent hne
    rw [entrOf]
    simp only [if_neg hne, hent, if_pos]
    exact ⟨_, rfl, rfl⟩

/-- The span whose text is `" Indgang "` (an entrance keyword with
whitespace). -/
def spanIndgang : SpanData := ⟨" Indgang ", 2, 0, 0, 2, 2⟩

/-- C3 witness: the `" Indgang "` span produces no room label and exactly
one entrance label carrying its stripped text. -/
theorem C3_entrance_before_room_witness :
    roomOf none false 595 842 1 spanIndgang = none ∧
    ∃ e, entrOf none 595 842 1 spanIndgang = some e ∧
      e.text = pyStrip spanIndgang.text := by
  have h := C3_entrance_before_room none false (fun x => x) 595 842 1 []
    spanIndgang
  exact ⟨h.2.1 (by decide), h.2.2 (by decide) (by decide)⟩

/-- The span with text `"A101"` at raw font size 3.4, bounding box
`(10, 10, 20, 20)`. -/
def spanA101 : SpanData := ⟨"A101", mkRat 17 5, 10, 10, 20, 20⟩

/-- C4 counterexample: when an error is raised during span processing
*after* a span has already been classified, the caught exception does not
yield two empty lists — the labels accumulated before the error are
returned (the `return` statement sits after the `except` clause and the
lists are initialised before the `try`).  Here the `"A101"` room label
survives the subsequent error. -/
theorem C4_error_empty_counterexample :
    extract_text_with_coordinates none false (fun x => x) 595 842
      [some spanA101, none] ≠
      (([] : List RoomLabel), ([] : List EntranceLabel)) := by
  decide

/-- An error at any point of the span loop is caught and the loop result is
whatever was accumulated up to that point. -/
theorem extract_loop_error (config : Option BuildingConfig) (useOcr : Bool)
    (w h scale : Rat) (good : List SpanData) (rest : List (Option SpanData))
    (rooms : List RoomLabel) (entrances : List EntranceLabel) :
    extract_loop config useOcr w h scale (good.map some ++ none :: rest)
        rooms entrances =
      extract_loop config useOcr w h scale (good.map some) rooms entrances := by
  induction good generalizing rooms entrances with
  | nil => simp [extract_loop]
  | cons s g ih =>
      simp only [List.map_cons, List.cons_append, extract_loop]
      split_ifs <;> apply ih

/-- C4 amended: a per-page extraction error is caught and the extraction
returns the labels accumulated before the error — the labels of the spans
preceding the failure point — rather than propagating the error; the
result is empty only when the error occurs before any span was
classified. -/
theorem C4_extraction_error_accumulated (config : Option BuildingConfig)
    (useOcr : Bool) (sqrtA : Rat → Rat) (w h : Rat)
    (good : List SpanData) (rest : List (Option SpanData)) :
    extract_text_with_coordinates config useOcr sqrtA w h
        (good.map some ++ none :: rest) =
      (good.filterMap (roomOf config useOcr w h
          (sqrtA (rdiv (rmul w h) (rmul 595 842)))),
       good.filterMap (entrOf config w h
          (sqrtA (rdiv (rmul w h) (rmul 595 842))))) := by
  simp only [extract_text_with_coordinates]
  rw [extract_loop_error, extract_loop_spec]
  simp

/-- C8: every label emitted by a native-text extraction pass on a page of
width `w` and height `h` carries `normalized_font_size` equal to the raw
size divided by the page-scale factor `sqrt((w*h)/(595*842))`, coordinates
equal to the bounding-box centre divided by the page width and height, the
raw font size, and (for rooms) an id equal to the uppercased stripped span
text. -/
theorem C8_scale_normalization (config : Option BuildingConfig)
    (useOcr : Bool) (sqrtA : Rat → Rat) (w h : Rat)
    (spans : List SpanData) :
    (∀ room ∈ (extract_text_with_coordinates config useOcr sqrtA w h
        (spans.map some)).1,
      ∃ s ∈ spans,
        room.normalized_font_size =
          rdiv s.size (sqrtA (rdiv (rmul w h) (rmul 595 842))) ∧
        room.font_size = s.size ∧
        room.x = rdiv (rdiv (radd s.x0 s.x1) 2) w ∧
        room.y = rdiv (rdiv (radd s.y0 s.y1) 2) h ∧
        room.id = pyUpper (pyStrip s.text)) ∧
    (∀ entrance ∈ (extract_text_with_coordinates config useOcr sqrtA w h
        (spans.map some)).2,
      ∃ s ∈ spans,
        entrance.normalized_font_size =
          rdiv s.size (sqrtA (rdiv (rmul w h) (rmul 595 842))) ∧
        entrance.font_size = s.size ∧
        entrance.x = rdiv (rdiv (radd s.x0 s.x1) 2) w ∧
        entrance.y = rdiv (rdiv (radd s.y0 s.y1) 2) h ∧
        entrance.text = pyStrip s.text) := by
  simp only [extract_text_with_coordinates]
  rw [extract_loop_spec]
  constructor
  · intro room hroom
    simp only [List.nil_append] at hroom
    rcases List.mem_filterMap.mp hroom with ⟨s, hs, hof⟩
    refine ⟨s, hs, ?_⟩
    rw [roomOf] at hof
    split_ifs at hof
    cases hof
    exact ⟨rfl, rfl, rfl, rfl, rfl⟩
  · intro entrance hent
    simp only [List.nil_append] at hent
    rcases List.mem_filterMap.mp hent with ⟨s, hs, hof⟩
    refine ⟨s, hs, ?_⟩
    rw [entrOf] at hof
    split_ifs at hof
    cases hof
    exact ⟨rfl, rfl, rfl, rfl, rfl⟩

/-- The room label `extract_text_with_coordinates` produces from
`spanA101` on a 595×842 page with the identity in place of the square root
(the scale argument is exactly 1 there). -/
def labelA101 : RoomLabel :=
  ⟨"A101", "A101", mkRat 3 119, mkRat 15 842, mkRat 17 5, mkRat 17 5⟩

/-- C8 witness: the `"A101"` label's fields satisfy the normalisation
equations at the concrete span. -/
theorem C8_scale_normalization_witness :
    labelA101.normalized_font_size =
      rdiv spanA101.size
        ((fun x => x) (rdiv (rmul 595 842) (rmul 595 842))) ∧
    labelA101.id = pyUpper (pyStrip spanA101.text) := by
  obtain ⟨s, hs, h1, h2, h3, h4, h5⟩ :=
    (C8_scale_normalization none false (fun x => x) 595 842 [spanA101]).1
      labelA101 (by decide)
  have hss : s = spanA101 := by simpa using hs
  subst hss
  exact ⟨h1, h5⟩


/-- The building's rooms flattened: floors in insertion order, rooms
within a floor in extraction order, each paired with its floor name. -/
def allRoomsOrdered (st : BuildingState) : List (String × RoomLabel) :=
  st.all_rooms.flatMap fun p => p.2.map fun room => (p.1, room)

theorem search_room_go_eq (room_query : String)
    (floors : List (String × List RoomLabel)) :
    search_room.go room_query floors =
      (floors.flatMap fun p => p.2.map fun room => (p.1, room)).find?
        (fun pr => pr.2.id == search_room.q room_query) := by
  induction floors with
  | nil => rfl
  | cons p rest ih =>
      rcases p with ⟨fl, rooms⟩
      rw [search_room.go, List.flatMap_cons, List.find?_append, ← ih]
      rw [List.find?_map]
      rcases h : rooms.find? (fun room => room.id == search_room.q room_query)
        with _ | room
      · have : rooms.find?
            ((fun pr : String × RoomLabel => pr.2.id == search_room.q room_query) ∘
              fun room => (fl, room)) = none := by
          rw [← h]
          rfl
        rw [this, h]
        rfl
      · have : rooms.find?
            ((fun pr : String × RoomLabel => pr.2.id == search_room.q room_query) ∘
              fun room => (fl, room)) = some room := by
          rw [← h]
          rfl
        rw [this, h]
        rfl

/-- C6: `search_room` uppercases and strips the query and returns the
first room (floors in insertion order, rooms in extraction order) whose id
equals the processed query, paired with its floor — `none` when no room
matches; it is deterministic; and when every stored room id is non-empty,
an empty or whitespace-only query (which processes to `""`) returns
`none`. -/
theorem C6_search_room (st : BuildingState) (room_query : String) :
    (search_room st room_query = (allRoomsOrdered st).find?
        (fun pr => pr.2.id == pyStrip (pyUpper room_query))) ∧
    (search_room st room_query = search_room st room_query) ∧
    ((∀ fl rooms, (fl, rooms) ∈ st.all_rooms → ∀ room ∈ rooms,
        room.id ≠ "") →
      pyStrip (pyUpper room_query) = "" → search_room st room_query = none) := by
  have hmain : search_room st room_query = (allRoomsOrdered st).find?
      (fun pr => pr.2.id == pyStrip (pyUpper room_query)) := by
    rw [search_room, search_room_go_eq]
    rfl
  refine ⟨hmain, rfl, ?_⟩
  intro hids hq
  rw [hmain, hq]
  apply List.find?_eq_none.mpr
  intro pr hpr
  rcases List.mem_flatMap.mp hpr with ⟨p, hp, hpr2⟩
  rcases List.mem_map.mp hpr2 with ⟨room, hroom, rfl⟩
  have := hids p.1 p.2 hp room hroom
  simpa using this

/-- A one-floor demonstration state: floor `"stue"` with one room
`"A101"` and one entrance. -/
def demoRoom : RoomLabel := ⟨"A101", "A101", 0, 0, mkRat 17 5, mkRat 17 5⟩

def demoEntrance : EntranceLabel := ⟨"Indgang", 0, 0, 1, 1⟩

def demoState : BuildingState :=
  ⟨[("stue", [demoRoom])], [("stue", [demoEntrance])]⟩

/-- C6 witness: on the demonstration state, a whitespace-only query yields
`none` and the lower-case padded query `" a101 "` finds the room. -/
theorem C6_search_room_witness :
    search_room demoState "  " = none ∧
    search_room demoState " a101 " = some ("stue", demoRoom) := by
  constructor
  · refine (C6_search_room demoState "  ").2.2 ?_ (by decide)
    intro fl rooms hm room hr
    simp only [demoState, List.mem_singleton] at hm
    cases hm
    simp only [demoRoom, List.mem_singleton] at hr
    subst hr
    decide
  · rw [(C6_search_room demoState " a101 ").1]
    decide

theorem nearestAux_mem (x y : Rat) (l : List EntranceLabel) :
    ∀ b bd, nearestAux x y b bd l = b ∨ nearestAux x y b bd l ∈ l := by
  induction l with
  | nil => intro b bd; left; rfl
  | cons e rest ih =>
      intro b bd
      rw [nearestAux]
      split_ifs
      · rcases ih e (dist2 x y e) with hh | hh
        · right
          rw [hh]
          simp
        · right
          simp [hh]
      · rcases ih b bd with hh | hh
        · left
          exact hh
        · right
          simp [hh]

theorem nearestAux_min (x y : Rat) (l : List EntranceLabel) :
    ∀ b bd, bd = dist2 x y b →
      dist2 x y (nearestAux x y b bd l) ≤ bd ∧
      ∀ e ∈ l, dist2 x y (nearestAux x y b bd l) ≤ dist2 x y e := by
  induction l with
  | nil =>
      intro b bd hb
      subst hb
      exact ⟨le_refl _, by simp⟩
  | cons e rest ih =>
      intro b bd hb
      subst hb
      rw [nearestAux]
      split_ifs with hlt
      · obtain ⟨h1, h2⟩ := ih e (dist2 x y e) rfl
        refine ⟨le_of_lt (lt_of_le_of_lt h1 hlt), ?_⟩
        intro e' he'
        rcases List.mem_cons.mp he' with rfl | he'
        · exact h1
        · exact h2 e' he'
      · obtain ⟨h1, h2⟩ := ih b (dist2 x y b) rfl
        refine ⟨h1, ?_⟩
        intro e' he'
        rcases List.mem_cons.mp he' with rfl | he'
        · exact le_trans h1 (not_lt.mp hlt)
        · exact h2 e' he'

theorem nearestAux_first (x y : Rat) (l : List EntranceLabel) :
    ∀ b bd, bd = dist2 x y b →
      ∃ l₁ l₂, b :: l = l₁ ++ nearestAux x y b bd l :: l₂ ∧
        ∀ e ∈ l₁, dist2 x y (nearestAux x y b bd l) < dist2 x y e := by
  induction l with
  | nil =>
      intro b bd hb
      exact ⟨[], [], rfl, by simp⟩
  | cons e rest ih =>
      intro b bd hb
      subst hb
      rw [nearestAux]
      split_ifs with hlt
      · obtain ⟨l₁, l₂, heq, hgt⟩ := ih e (dist2 x y e) rfl
        refine ⟨b :: l₁, l₂, ?_, ?_⟩
        · rw [List.cons_append, ← heq]
        · intro e' he'
          rcases List.mem_cons.mp he' with rfl | he'
          · have := (nearestAux_min x y rest e (dist2 x y e) rfl).1
            exact lt_of_le_of_lt this hlt
          · exact hgt e' he'
      · obtain ⟨l₁, l₂, heq, hgt⟩ := ih b (dist2 x y b) rfl
        cases l₁ with
        | nil =>
            rw [List.nil_append] at heq
            injection heq with h1 h2
            refine ⟨[], e :: rest, ?_, by simp⟩
            rw [List.nil_append, ← h1]
        | cons a l₁' =>
            rw [List.cons_append] at heq
            injection heq with h1 h2
            subst h1
            refine ⟨b :: e :: l₁', l₂, ?_, ?_⟩
            · rw [List.cons_append, List.cons_append, ← h2]
            · intro e' he'
              have hb' : dist2 x y (nearestAux x y b (dist2 x y b) rest) <
                  dist2 x y b := hgt b (by simp)
              rcases List.mem_cons.mp he' with rfl | he'
              · exact hb'
              · rcases List.mem_cons.mp he' with rfl | he'
                · exact lt_of_lt_of_le hb' (not_lt.mp hlt)
                · exact hgt e' (by simp [he'])

/-- C7: `get_nearest_entrance` draws its candidates from ground floors
(floor name containing `stue`/`ground`/`0` as a case-insensitive
substring), falling back to the entrances of all floors when no floor name
matches (`entranceCandidates`); it returns `none` exactly when the
candidate list is empty; a single candidate is returned regardless of
distance; and a returned entrance is a candidate of minimal squared
Euclidean distance that strictly beats every candidate encountered before
it (first-encountered wins ties). -/
theorem C7_nearest_entrance (st : BuildingState) (x y : Rat) :
    (get_nearest_entrance st x y = none ↔ entranceCandidates st = []) ∧
    (∀ e, entranceCandidates st = [e] →
      get_nearest_entrance st x y = some e) ∧
    (∀ e, get_nearest_entrance st x y = some e →
      e ∈ entranceCandidates st ∧
      (∀ e' ∈ entranceCandidates st, dist2 x y e ≤ dist2 x y e') ∧
      ∃ l₁ l₂, entranceCandidates st = l₁ ++ e :: l₂ ∧
        ∀ e' ∈ l₁, dist2 x y e < dist2 x y e') := by
  rcases hc : entranceCandidates st with _ | ⟨c, rest⟩
  · refine ⟨?_, ?_, ?_⟩
    · simp [get_nearest_entrance, hc]
    · intro e he
      simp at he
    · intro e he
      simp [get_nearest_entrance, hc] at he
  · refine ⟨?_, ?_, ?_⟩
    · simp [get_nearest_entrance, hc]
    · intro e he
      injection he with h1 h2
      subst h2
      simp only [get_nearest_entrance, hc, nearestAux, h1]
    · intro e he
      simp only [get_nearest_entrance, hc, Option.some.injEq] at he
      subst he
      refine ⟨?_, ?_, ?_⟩
      · rcases nearestAux_mem x y rest c (dist2 x y c) with hh | hh
        · rw [hh]
          simp
        · simp [hh]
      · obtain ⟨h1, h2⟩ := nearestAux_min x y rest c (dist2 x y c) rfl
        intro e' he'
        rcases List.mem_cons.mp he' with rfl | he'
        · exact h1
        · exact h2 e' he'
      · exact nearestAux_first x y rest c (dist2 x y c) rfl

/-- C7 witness: with a single loaded entrance, `get_nearest_entrance`
returns it (regardless of its distance to the query point). -/
theorem C7_nearest_entrance_witness :
    get_nearest_entrance demoState 7 9 = some demoEntrance :=
  (C7_nearest_entrance demoState 7 9).2.1 demoEntrance (by decide)

end Bygn
